import Mathlib

/-!
Verification development for the `split.py` ROM-splitting tool.

The Python source (`src/split.py`) is shallowly embedded below.  Pure
functions of the source (`fmt_size`, `merge_configs`, `initialize_segments`,
`get_segment_symbols`) are translated directly; the orchestration in `main`
(checksum gate, cache load, cache invalidation, scan pass, split pass) is
translated as explicit state passing, with file/terminal I/O dropped and the
outcome of the cache-file read supplied as an `Except` argument.

Collaborators of `split.py` that live outside the provided source
(`segtypes.segment.Segment`, `util.symbols`, `util.options`, `hashlib`)
are modelled from the specification; each such definition carries a doc
comment starting with `Modelled from the spec:`.
-/

namespace Splat

/-- Runtime type tags for the YAML values handled by `merge_configs`;
models Python's `type(...)` distinctions between scalars, lists and dicts. -/
inductive PyTy where
  | str
  | int
  | bool
  | list
  | dict
deriving DecidableEq, Repr

/-- A YAML configuration value as `merge_configs` sees it: a scalar
(string, number or boolean), a list, or a mapping (a Python dict, kept in
insertion order as an association list). -/
inductive Val where
  | str (s : String)
  | int (n : Int)
  | bool (b : Bool)
  | list (l : List Val)
  | dict (d : List (String × Val))

/-- The Python runtime type of a value, as compared by
`type(main_config[curkey]) != type(additional_config[curkey])`. -/
def Val.ty : Val → PyTy
  | .str _ => .str
  | .int _ => .int
  | .bool _ => .bool
  | .list _ => .list
  | .dict _ => .dict

/-- A value that is neither a list nor a dict ("must be a number or string"
in the source's comment). -/
def Val.isScalar : Val → Bool
  | .list _ => false
  | .dict _ => false
  | _ => true

/-- Lookup in a Python dict modelled as an insertion-ordered association
list: `d[k]` / `k in d`. -/
def dget (d : List (String × Val)) (k : String) : Option Val :=
  match d with
  | [] => none
  | (k', v) :: rest => if k' = k then some v else dget rest k

/-- Assignment `d[k] = v` on a Python dict modelled as an insertion-ordered
association list: replaces in place if the key exists, else appends. -/
def dset (d : List (String × Val)) (k : String) (v : Val) : List (String × Val) :=
  match d with
  | [] => [(k, v)]
  | (k', v') :: rest => if k' = k then (k', v) :: rest else (k', v') :: dset rest k v

/-- The fatal error raised (via `log.error`) when the two configs hold
values of different runtime types for the same key. -/
inductive MergeError where
  | typeMismatch (key : String)
deriving DecidableEq, Repr

/-- `merge_configs` (split.py lines 114-137): folds `additional_config`
into `main_config`; lists concatenate, dicts merge recursively, anything
else is overwritten by the later document, and a runtime-type mismatch is
fatal. -/
def merge_configs : List (String × Val) → List (String × Val) → Except MergeError (List (String × Val))
  | main_config, [] => Except.ok main_config
  | main_config, (curkey, v) :: rest =>
    match dget main_config curkey with
    | none => merge_configs (dset main_config curkey v) rest
    | some mv =>
      if mv.ty = v.ty then
        match mv, v with
        | Val.list l1, Val.list l2 =>
          merge_configs (dset main_config curkey (Val.list (l1 ++ l2))) rest
        | Val.dict d1, Val.dict d2 =>
          match merge_configs d1 d2 with
          | Except.ok m => merge_configs (dset main_config curkey (Val.dict m)) rest
          | Except.error e => Except.error e
        | _, _ => merge_configs (dset main_config curkey v) rest
      else Except.error (MergeError.typeMismatch curkey)
termination_by _ add => sizeOf add
decreasing_by all_goals simp_wf <;> omega

/-- `fmt_size` (split.py lines 32-38): human-readable byte count with
strict `>` thresholds and integer division. -/
def fmt_size (size : Nat) : String :=
  if size > 1000000 then toString (size / 1000000) ++ " MB"
  else if size > 1000 then toString (size / 1000) ++ " KB"
  else toString size ++ " B"

/-- Modelled from the spec: the part of the segment-type contract (§6) that
`main` and the two passes consult on a concrete `Segment` object.  The
concrete per-type behaviours (`size`, `is_name_default`, `should_scan`,
`should_split`, `needs_symbols`, the `cache()` fingerprint, `unique_id`,
`require_unique_name`) live in the external `segtypes` package, so they are
carried as opaque data resolved at descriptor level.  Fingerprints are
"opaque comparable values", embedded as `Nat`. -/
structure SegBehavior where
  size : Option Nat
  nameDefault : Bool
  shouldScan : Bool
  shouldSplit : Bool
  needsSymbols : Bool
  fingerprint : Nat
  uid : String
  requireUniqueName : Bool
deriving DecidableEq, Repr

/-- A raw entry of the configuration's `segments` list: either a YAML list
(whose single-element form is the boundary / "rompos" marker of split.py
line 46) or a YAML mapping declaring a start address plus the fields the
external segment class resolves (name, type, vram range, behaviour). -/
inductive SegDesc where
  | lst (vals : List Nat)
  | dict (start : Nat) (name : String) (typ : String)
      (vramStart vramEnd : Option Nat) (beh : SegBehavior)
deriving DecidableEq, Repr

/-- The test of split.py line 46:
`isinstance(seg_yaml, list) and len(seg_yaml) == 1`. -/
def isBoundaryMarker : SegDesc → Bool
  | .lst vals => vals.length == 1
  | .dict _ _ _ _ _ _ => false

/-- Modelled from the spec: `Segment.parse_segment_start` (external
`segtypes.segment`).  A mapping descriptor declares its start; a list
descriptor carries its address first (a boundary marker is a single
address).  An empty list entry has no start. -/
def parse_segment_start : SegDesc → Option Nat
  | .lst vals => vals.head?
  | .dict start _ _ _ _ _ => some start

/-- A constructed segment: the data of the spec's Segment model (§3) that
split.py reads — name, type tag, resolved ROM range, optional vram range,
and the behaviour contract. -/
structure Segment where
  name : String
  typ : String
  rom_start : Nat
  rom_end : Nat
  vram_start : Option Nat
  vram_end : Option Nat
  beh : SegBehavior
deriving DecidableEq, Repr

/-- Behaviour attached to a list-form (non-mapping) segment descriptor,
whose fields the external parser would default; only its shape matters
here. -/
def defaultBehavior : SegBehavior :=
  { size := none, nameDefault := true, shouldScan := false, shouldSplit := false,
    needsSymbols := false, fingerprint := 0, uid := "", requireUniqueName := false }

/-- Modelled from the spec: `Segment.from_yaml` (external
`segtypes.segment`) builds the segment from the descriptor with
`rom_start = this_start` and `rom_end = next_start` (§4.2 range
resolution). -/
def mk_segment (d : SegDesc) (this_start next_start : Nat) : Segment :=
  match d with
  | .dict _ name typ vramStart vramEnd beh =>
    { name := name, typ := typ, rom_start := this_start, rom_end := next_start,
      vram_start := vramStart, vram_end := vramEnd, beh := beh }
  | .lst _ =>
    { name := "", typ := "bin", rom_start := this_start, rom_end := next_start,
      vram_start := none, vram_end := none, beh := defaultBehavior }

/-- Modelled from the spec: `Segment.contains_vram` — half-open containment
`[vram_start, vram_end)`, false for segments not mapped into the runtime
address space (§4.1, §3). -/
def Segment.contains_vram (segment : Segment) (addr : Nat) : Bool :=
  match segment.vram_start, segment.vram_end with
  | some s, some e => decide (s ≤ addr) && decide (addr < e)
  | _, _ => false

/-- Modelled from the spec: `Segment.contains_rom` — half-open containment
`[rom_start, rom_end)` (§4.1). -/
def Segment.contains_rom (segment : Segment) (addr : Nat) : Bool :=
  decide (segment.rom_start ≤ addr) && decide (addr < segment.rom_end)

/-- Failures of `initialize_segments`: the out-of-range
`config_segments[i + 1]` read (Python `IndexError`), a descriptor with no
parsable start, and the fatal `log.error` on a duplicate unique name. -/
inductive InitError where
  | indexError
  | parseError
  | duplicateName (name : String)
deriving DecidableEq, Repr

/-- The loop of `initialize_segments` (split.py lines 44-64), with the
running `seen_segment_names` set.  Indexing `config_segments[i + 1]`
becomes a `head?` on the tail, which fails (`IndexError`) when the current
real descriptor is last. -/
def initialize_segments_loop : List SegDesc → List String → Except InitError (List Segment)
  | [], _ => Except.ok []
  | seg_yaml :: rest, seen =>
    if isBoundaryMarker seg_yaml then
      initialize_segments_loop rest seen
    else
      match parse_segment_start seg_yaml with
      | none => Except.error InitError.parseError
      | some this_start =>
        match rest.head? with
        | none => Except.error InitError.indexError
        | some next_desc =>
          match parse_segment_start next_desc with
          | none => Except.error InitError.parseError
          | some next_start =>
            let segment := mk_segment seg_yaml this_start next_start
            if segment.beh.requireUniqueName && seen.contains segment.name then
              Except.error (InitError.duplicateName segment.name)
            else
              let seen' := if segment.beh.requireUniqueName then segment.name :: seen else seen
              match initialize_segments_loop rest seen' with
              | Except.ok segs => Except.ok (segment :: segs)
              | Except.error e => Except.error e

/-- `initialize_segments` (split.py lines 40-66). -/
def initialize_segments (config_segments : List SegDesc) : Except InitError (List Segment) :=
  initialize_segments_loop config_segments []

/-- Modelled from the spec: a symbol of the process-wide table (§3) as
`get_segment_symbols` reads it — a name, a vram start address, and an
optional explicit ROM address. -/
structure Sym where
  name : String
  vram_start : Nat
  rom : Option Nat
deriving DecidableEq, Repr

/-- Python truthiness of `symbol.rom`: `None` and `0` are both falsy, so
`not symbol.rom` holds exactly when the symbol carries no usable ROM
address. -/
def rom_truthy (symbol : Sym) : Bool :=
  match symbol.rom with
  | none => false
  | some r => decide (r ≠ 0)

/-- Modelled from the spec: `symbols.is_symbol_isolated` (external
`util.symbols`) — exactly one segment in the entire tree contains the
symbol's vram address (§4.3). -/
def is_symbol_isolated (symbol : Sym) (all_segments : List Segment) : Bool :=
  (all_segments.countP fun seg => seg.contains_vram symbol.vram_start) == 1

/-- One `d.setdefault(vram, []).append(symbol)` step of split.py lines
75-77 (and its three clones): the dict-of-lists is a total map from
address to the list of symbols appended there, empty by default. -/
def addSym (d : Nat → List Sym) (symbol : Sym) : Nat → List Sym :=
  fun a => if a = symbol.vram_start then d a ++ [symbol] else d a

/-- Python `symbol.rom and segment.contains_rom(symbol.rom)` (split.py
line 83): short-circuits on a falsy (`None` or `0`) ROM address. -/
def rom_contained (segment : Segment) (symbol : Sym) : Bool :=
  match symbol.rom with
  | some r => decide (r ≠ 0) && segment.contains_rom r
  | none => false

/-- The loop of `get_segment_symbols` (split.py lines 72-90), threading the
`seg_syms` and `other_syms` dicts through the symbol table. -/
def get_segment_symbols_loop (segment : Segment) (all_segments : List Segment) :
    List Sym → (Nat → List Sym) → (Nat → List Sym) → ((Nat → List Sym) × (Nat → List Sym))
  | [], seg_syms, other_syms => (seg_syms, other_syms)
  | symbol :: rest, seg_syms, other_syms =>
    if is_symbol_isolated symbol all_segments && !rom_truthy symbol then
      if segment.contains_vram symbol.vram_start then
        get_segment_symbols_loop segment all_segments rest (addSym seg_syms symbol) other_syms
      else
        get_segment_symbols_loop segment all_segments rest seg_syms (addSym other_syms symbol)
    else
      if rom_contained segment symbol then
        get_segment_symbols_loop segment all_segments rest (addSym seg_syms symbol) other_syms
      else
        get_segment_symbols_loop segment all_segments rest seg_syms (addSym other_syms symbol)

/-- `get_segment_symbols` (split.py lines 68-92); the global
`symbols.all_symbols` table is passed explicitly. -/
def get_segment_symbols (segment : Segment) (all_segments : List Segment)
    (all_symbols : List Sym) : ((Nat → List Sym) × (Nat → List Sym)) :=
  get_segment_symbols_loop segment all_segments all_symbols (fun _ => []) (fun _ => [])

/-- The branch condition of `get_segment_symbols` deciding that a symbol
lands in `seg_syms` (the segment's owned set) rather than `other_syms`:
vram-isolated with falsy ROM and vram-contained, or ROM-carrying and
ROM-contained. -/
def attributed_to_segment (segment : Segment) (all_segments : List Segment) (symbol : Sym) : Bool :=
  if is_symbol_isolated symbol all_segments && !rom_truthy symbol then
    segment.contains_vram symbol.vram_start
  else
    rom_contained segment symbol

/-- The in-memory cache dict of `main`: keys are segment unique ids plus
the reserved `"__options__"` key; values are opaque comparable
fingerprints (and the options block itself under the reserved key),
embedded as `Nat`.  `cache.get(k)` is application; a missing key is
`none`. -/
def Cache : Type := String → Option Nat

/-- `counter[k] += n` on a Python counter dict whose keys are initialized
to `0` before first use (split.py lines 267-270), so it is a total map
defaulting to `0`. -/
def bump (f : String → Nat) (k : String) (n : Nat) : String → Nat :=
  fun x => if x = k then f x + n else f x

/-- Why the cache-file read failed (split.py lines 228-235 catch every
exception alike). -/
inductive CacheLoadError where
  | missingFile
  | corruptData
deriving DecidableEq, Repr

/-- The cache-load block of `main` (split.py lines 226-237): the outcome of
reading and unpickling the cache file is given as an `Except`; any failure
degrades to the empty dict, and with caching disabled the cache is empty
too. -/
def load_cache (use_cache : Bool) (loaded : Except CacheLoadError Cache) : Cache :=
  if use_cache then
    match loaded with
    | Except.ok cache => cache
    | Except.error _ => fun _ => none
  else fun _ => none

/-- The whole-store invalidation of `main` (split.py lines 239-246): when
caching is on and the stored `"__options__"` entry differs from the
configuration's options block, the store is replaced by a dict holding
only the fresh options entry. -/
def invalidate_on_options_change (use_cache : Bool) (cache : Cache)
    (config_options : Option Nat) : Cache :=
  if use_cache ∧ cache "__options__" ≠ config_options then
    fun k => if k = "__options__" then config_options else none
  else cache

/-- State threaded through the scan loop of `main` (split.py lines
262-291): the per-type byte and split counters, the uids of segments whose
scan actually ran (`processed_segments`), and the loop variable `typ`,
which survives the loop (`none` models it being still unassigned).  The
`seg_cached[typ] = 0` initialisations are no-ops on total maps defaulting
to `0`. -/
structure ScanState where
  typ : Option String
  seg_sizes : String → Nat
  seg_split : String → Nat
  processed : List String

/-- One iteration of the scan loop (split.py lines 262-291).  Symbol
granting and the `scan` call itself are external side effects on the
segment; their occurrence is recorded in `processed`. -/
def scan_step (use_cache : Bool) (cache : Cache) (st : ScanState) (segment : Segment) :
    ScanState :=
  let typ := if segment.typ = "bin" ∧ segment.beh.nameDefault then "unk" else segment.typ
  let sizes := bump st.seg_sizes typ (segment.beh.size.getD 0)
  if segment.beh.shouldScan then
    if use_cache ∧ cache segment.beh.uid = some segment.beh.fingerprint then
      { typ := some typ, seg_sizes := sizes, seg_split := st.seg_split,
        processed := st.processed }
    else
      { typ := some typ, seg_sizes := sizes, seg_split := bump st.seg_split typ 1,
        processed := st.processed ++ [segment.beh.uid] }
  else
    { typ := some typ, seg_sizes := sizes, seg_split := st.seg_split,
      processed := st.processed }

/-- The scan loop `for segment in all_segments` (split.py line 262); the
cache is only read here, never written. -/
def scan_pass (use_cache : Bool) (cache : Cache) : List Segment → ScanState → ScanState
  | [], st => st
  | segment :: rest, st => scan_pass use_cache cache rest (scan_step use_cache cache st segment)

/-- State threaded through the split loop of `main` (split.py lines
295-310): the cache dict (written on every miss), the per-type cache-hit
counters, the uids of segments that hit (`continue`d), and the uids whose
`split` ran. -/
structure SplitState where
  cache : Cache
  seg_cached : String → Nat
  hits : List String
  did_split : List String

/-- One iteration of the split loop (split.py lines 295-310).  On a hit
the counter bumped is keyed by `typ` — the variable LEFT OVER from the
scan loop, passed in once for the whole pass, exactly as in the source; if
the scan loop never ran, Python would raise `NameError` here, so the
`none` case is inert and unreachable (both loops walk the same list). -/
def split_step (use_cache : Bool) (typ : Option String) (st : SplitState) (segment : Segment) :
    SplitState :=
  if use_cache then
    let cached := segment.beh.fingerprint
    if st.cache segment.beh.uid = some cached then
      { cache := st.cache,
        seg_cached := match typ with
          | some t => bump st.seg_cached t 1
          | none => st.seg_cached,
        hits := st.hits ++ [segment.beh.uid],
        did_split := st.did_split }
    else
      let cache' := fun k => if k = segment.beh.uid then some cached else st.cache k
      if segment.beh.shouldSplit then
        { cache := cache', seg_cached := st.seg_cached, hits := st.hits,
          did_split := st.did_split ++ [segment.beh.uid] }
      else
        { cache := cache', seg_cached := st.seg_cached, hits := st.hits,
          did_split := st.did_split }
  else
    if segment.beh.shouldSplit then
      { st with did_split := st.did_split ++ [segment.beh.uid] }
    else st

/-- The split loop `for segment in all_segments` (split.py line 295). -/
def split_pass (use_cache : Bool) (typ : Option String) : List Segment → SplitState → SplitState
  | [], st => st
  | segment :: rest, st => split_pass use_cache typ rest (split_step use_cache typ st segment)

/-- Fatal (`log.error`) outcomes of `main` within the modelled fragment:
the sha1 gate and segment initialization. -/
inductive FatalError where
  | sha1Mismatch (expected computed : String)
  | initFailure (e : InitError)
deriving DecidableEq, Repr

/-- What a completed run of the modelled fragment of `main` produced. -/
structure RunResult where
  all_segments : List Segment
  scan : ScanState
  split : SplitState

/-- Python `str.lower()` restricted to ASCII, as applied to the declared
sha1 hex string. -/
def str_lower (s : String) : String :=
  String.mk (s.data.map Char.toLower)

/-- `main` after the checksum gate (split.py lines 220-310): load the
cache, invalidate it wholesale if the options block changed, initialize
the segments, then run the scan pass and the split pass. -/
def main_run_after_gate (use_cache : Bool) (cache_loaded : Except CacheLoadError Cache)
    (config_options : Option Nat) (config_segments : List SegDesc) :
    Except FatalError RunResult :=
  let cache0 := load_cache use_cache cache_loaded
  let cache := invalidate_on_options_change use_cache cache0 config_options
  match initialize_segments config_segments with
  | Except.error e => Except.error (FatalError.initFailure e)
  | Except.ok all_segments =>
    let scanSt := scan_pass use_cache cache all_segments
      { typ := none, seg_sizes := fun _ => 0, seg_split := fun _ => 0, processed := [] }
    let splitSt := split_pass use_cache scanSt.typ all_segments
      { cache := cache, seg_cached := fun _ => 0, hits := [], did_split := [] }
    Except.ok { all_segments := all_segments, scan := scanSt, split := splitSt }

/-- The modelled fragment of `main` (split.py lines 190-310): the sha1
gate (lines 211-215) guards everything after it.  `computed_sha1` stands
for `hashlib.sha1(rom_bytes).hexdigest()` (modelled from the spec: an
externally computed lowercase hex digest); `expected_sha1` is
`config["sha1"]` when present. -/
def main_run (expected_sha1 : Option String) (computed_sha1 : String) (use_cache : Bool)
    (cache_loaded : Except CacheLoadError Cache) (config_options : Option Nat)
    (config_segments : List SegDesc) : Except FatalError RunResult :=
  match expected_sha1 with
  | some declared =>
    if str_lower declared ≠ computed_sha1 then
      Except.error (FatalError.sha1Mismatch (str_lower declared) computed_sha1)
    else
      main_run_after_gate use_cache cache_loaded config_options config_segments
  | none => main_run_after_gate use_cache cache_loaded config_options config_segments

/-! ### Concrete inputs used by witnesses and counterexamples -/

/-- Behaviour record for example segments: only `uid`, `fingerprint` and
the predicate flags vary across the examples. -/
def exBeh (uid : String) (fp : Nat) (scan split : Bool) : SegBehavior :=
  { size := some 16, nameDefault := false, shouldScan := scan, shouldSplit := split,
    needsSymbols := false, fingerprint := fp, uid := uid, requireUniqueName := false }

/-- The descriptor sequence of the spec's range-resolution example:
`[{start:0}, {start:0x1000, name:"main"}, {start:0x2000}]`, the last entry
being a boundary marker. -/
def exC2_cfg : List SegDesc :=
  [SegDesc.dict 0 "first" "bin" none none (exBeh "c2first" 0 false false),
   SegDesc.dict 4096 "main" "code" none none (exBeh "c2main" 0 false false),
   SegDesc.lst [8192]]

/-- A single real descriptor with no following entry: the claimed
"open-ended last segment" input. -/
def exC2_last : List SegDesc :=
  [SegDesc.dict 0 "only" "bin" none none (exBeh "c2only" 0 false false)]

/-- A well-formed prefix followed by a final real (non-marker) descriptor. -/
def exC9_cfg : List SegDesc :=
  [SegDesc.dict 0 "x" "bin" none none (exBeh "c9x" 0 false false),
   SegDesc.dict 4096 "y" "bin" none none (exBeh "c9y" 0 false false)]

/-- A marker-terminated descriptor list, for the witness of C9's
success-implies-marker direction. -/
def exC9_ok_cfg : List SegDesc :=
  [SegDesc.dict 0 "x" "bin" none none (exBeh "c9x" 0 false false),
   SegDesc.lst [4096]]

/-- One of the two example segments for the symbol claims: the one whose
vram range contains the example symbol. -/
def exC1_segA : Segment :=
  { name := "A", typ := "code", rom_start := 0, rom_end := 256,
    vram_start := some 256, vram_end := some 512, beh := exBeh "segA" 0 true true }

/-- The other example segment, with a disjoint vram range. -/
def exC1_segB : Segment :=
  { name := "B", typ := "code", rom_start := 256, rom_end := 512,
    vram_start := some 1024, vram_end := some 1280, beh := exBeh "segB" 0 true true }

/-- A symbol contained by exactly one of the two example segments, with no
ROM address. -/
def exC1_sym : Sym := { name := "only", vram_start := 384, rom := none }

/-- The spec's merge example, first document:
`{"segments":[1,2], "options":{"x":1}}`. -/
def exC6_main : List (String × Val) :=
  [("segments", Val.list [Val.int 1, Val.int 2]), ("options", Val.dict [("x", Val.int 1)])]

/-- The spec's merge example, second document:
`{"segments":[3], "options":{"y":2}}`. -/
def exC6_add : List (String × Val) :=
  [("segments", Val.list [Val.int 3]), ("options", Val.dict [("y", Val.int 2)])]

/-- The spec's merge example, expected result:
`{"segments":[1,2,3], "options":{"x":1,"y":2}}`. -/
def exC6_out : List (String × Val) :=
  [("segments", Val.list [Val.int 1, Val.int 2, Val.int 3]),
   ("options", Val.dict [("x", Val.int 1), ("y", Val.int 2)])]

/-- Stored cache for the C4 run: a matching options fingerprint plus the
current fingerprint of segment `"s1"` only, so `"s1"` hits and `"s2"`
misses. -/
def exC4_cache : Cache := fun k =>
  if k = "__options__" then some 7 else if k = "s1" then some 1 else none

/-- Two real segments of different types (`"code"` then `"img"`) and a
closing boundary marker. -/
def exC4_cfg : List SegDesc :=
  [SegDesc.dict 0 "a" "code" none none (exBeh "s1" 1 true true),
   SegDesc.dict 4096 "b" "img" none none (exBeh "s2" 2 true true),
   SegDesc.lst [8192]]

/-- Stored cache for the C3 witness run: its reserved options entry
differs from the configuration's options block. -/
def exC3_cache : Cache := fun k =>
  if k = "__options__" then some 5 else if k = "c3a" then some 1 else none

/-- First real descriptor of the C3 witness run. -/
def exC3_d1 : SegDesc := SegDesc.dict 0 "a" "code" none none (exBeh "c3a" 1 true true)

/-- Second real descriptor of the C3 witness run. -/
def exC3_d2 : SegDesc := SegDesc.dict 4096 "b" "img" none none (exBeh "c3b" 2 true true)

/-- Descriptor list of the C3 witness run. -/
def exC3_cfg : List SegDesc := [exC3_d1, exC3_d2, SegDesc.lst [8192]]

/-- The result record of the C3 witness run (the run succeeds; the error
branch only provides totality). -/
def exC3_result : RunResult :=
  match main_run none "" true (Except.ok exC3_cache) (some 7) exC3_cfg with
  | Except.ok r => r
  | Except.error _ =>
    { all_segments := [],
      scan := { typ := none, seg_sizes := fun _ => 0, seg_split := fun _ => 0, processed := [] },
      split := { cache := fun _ => none, seg_cached := fun _ => 0, hits := [], did_split := [] } }

/-! ### Helper lemmas -/

theorem dget_dset_same (d : List (String × Val)) (k : String) (v : Val) :
    dget (dset d k v) k = some v := by
  induction d with
  | nil => simp [dget, dset]
  | cons p rest ih =>
    obtain ⟨k', v'⟩ := p
    by_cases h : k' = k
    · simp [dget, dset, h]
    · simp [dget, dset, h, ih]

theorem dget_dset_other (d : List (String × Val)) (k k' : String) (v : Val)
    (h : k ≠ k') : dget (dset d k v) k' = dget d k' := by
  induction d with
  | nil => simp [dget, dset, h]
  | cons p rest ih =>
    obtain ⟨k₀, v₀⟩ := p
    by_cases h0 : k₀ = k
    · subst h0
      simp [dget, dset, h]
    · simp [dget, dset, h0, ih]

/-- Destructuring a successful `initialize_segments_loop` step on a real
(non-marker) head descriptor: the produced segment pairs the head's parsed
start with the parsed start of the immediately following entry. -/
theorem init_loop_cons_real (d : SegDesc) (rest : List SegDesc) (seen : List String)
    (segs : List Segment) (hd : isBoundaryMarker d = false)
    (h : initialize_segments_loop (d :: rest) seen = Except.ok segs) :
    ∃ this_start next_desc next_start tail,
      parse_segment_start d = some this_start ∧
      rest.head? = some next_desc ∧
      parse_segment_start next_desc = some next_start ∧
      initialize_segments_loop rest
        (if (mk_segment d this_start next_start).beh.requireUniqueName
         then (mk_segment d this_start next_start).name :: seen else seen) = Except.ok tail ∧
      segs = mk_segment d this_start next_start :: tail := by
  unfold initialize_segments_loop at h
  rw [hd] at h
  simp only [Bool.false_eq_true, if_false] at h
  split at h
  · simp at h
  · rename_i this_start hps
    split at h
    · simp at h
    · rename_i next_desc hh
      split at h
      · simp at h
      · rename_i next_start hpn
        split at h
        · simp at h
        · split at h
          · rename_i tail hrec
            exact ⟨this_start, next_desc, next_start, tail, hps, hh, hpn, hrec,
              (Except.ok.inj h).symm⟩
          · simp at h

/-- A successful `initialize_segments_loop` run forces the last descriptor
(when there is one) to be a boundary marker: a trailing real descriptor
would have read past the end of the list. -/
theorem init_loop_ok_last_marker : ∀ (cs : List SegDesc) (seen : List String)
    (segs : List Segment), initialize_segments_loop cs seen = Except.ok segs →
    ∀ d, cs.getLast? = some d → isBoundaryMarker d = true := by
  intro cs
  induction cs with
  | nil => intro seen segs _ d hd; exact absurd hd (by simp)
  | cons c rest ih =>
    intro seen segs h d hd
    by_cases hb : isBoundaryMarker c = true
    · have h' : initialize_segments_loop rest seen = Except.ok segs := by
        unfold initialize_segments_loop at h
        rwa [if_pos hb] at h
      cases rest with
      | nil =>
        have : d = c := by simpa using hd.symm
        rw [this]; exact hb
      | cons r rs =>
        rw [List.getLast?_cons_cons] at hd
        exact ih seen segs h' d hd
    · have hb' : isBoundaryMarker c = false := by simpa using hb
      obtain ⟨ts, nd, ns, tail, _, hh, _, hrec, _⟩ :=
        init_loop_cons_real c rest seen segs hb' h
      cases rest with
      | nil => exact absurd hh (by simp)
      | cons r rs =>
        rw [List.getLast?_cons_cons] at hd
        exact ih _ _ hrec d hd

/-! ### Claim C5 — `fmt_size` thresholds -/

/-- C5, corrected: `fmt_size` uses strict thresholds — `"<n> B"` for
`n ≤ 1000`, `"<n/1000> KB"` for `1000 < n ≤ 1000000`, `"<n/1000000> MB"`
for `n > 1000000`; the spec's examples `999 -> "999 B"`, `1500 -> "1 KB"`,
`2500000 -> "2 MB"` all hold. -/
theorem claim_C5_thm : ∀ n : Nat,
    (n ≤ 1000 → fmt_size n = toString n ++ " B") ∧
    (1000 < n → n ≤ 1000000 → fmt_size n = toString (n / 1000) ++ " KB") ∧
    (1000000 < n → fmt_size n = toString (n / 1000000) ++ " MB") ∧
    fmt_size 999 = "999 B" ∧ fmt_size 1500 = "1 KB" ∧ fmt_size 2500000 = "2 MB" := by
  intro n
  refine ⟨fun h => ?_, fun h1 h2 => ?_, fun h => ?_, by decide, by decide, by decide⟩
  · unfold fmt_size; rw [if_neg (by omega), if_neg (by omega)]
  · unfold fmt_size; rw [if_neg (by omega), if_pos (by omega)]
  · unfold fmt_size; rw [if_pos (by omega)]

/-- Witness for C5 at `n = 1500`. -/
theorem claim_C5_witness : fmt_size 1500 = toString (1500 / 1000) ++ " KB" :=
  (claim_C5_thm 1500).2.1 (by omega) (by omega)

/-- Counterexample to C5 as stated: at the boundaries the comparisons are
strict, so `1000` formats as `"1000 B"` (the claim demands `"1 KB"`) and
`1000000` formats as `"1000 KB"` (the claim demands `"1 MB"`). -/
theorem claim_C5_cex :
    fmt_size 1000 = "1000 B" ∧ fmt_size 1000000 = "1000 KB" ∧
    "1000 B" ≠ "1 KB" ∧ "1000 KB" ≠ "1 MB" :=
  ⟨by decide, by decide, by decide, by decide⟩

/-! ### Claim C2 — segment range resolution -/

/-- The real head descriptor of the witness run for C2. -/
def exW2_d : SegDesc := SegDesc.dict 0 "x" "bin" none none (exBeh "w2" 0 false false)

/-- The segment the witness run for C2 produces. -/
def exW2_seg : Segment := mk_segment exW2_d 0 4096

/-- C2, amended: a real segment's resolved `rom_end` is always the parsed
start of the immediately following descriptor entry — the address of a
following boundary marker, or the next real sibling's declared start,
whichever comes next in the list; there is no open-ended (unresolved)
case, a trailing real descriptor being an index error instead.  On the
spec's example the middle segment resolves to `[0x1000, 0x2000)`. -/
theorem claim_C2_thm :
    (∀ (d : SegDesc) (rest : List SegDesc) (seen : List String) (segs : List Segment)
        (this_start next_start : Nat) (next_desc : SegDesc),
      isBoundaryMarker d = false →
      initialize_segments_loop (d :: rest) seen = Except.ok segs →
      parse_segment_start d = some this_start →
      rest.head? = some next_desc →
      parse_segment_start next_desc = some next_start →
      segs.head? = some (mk_segment d this_start next_start) ∧
      (mk_segment d this_start next_start).rom_start = this_start ∧
      (mk_segment d this_start next_start).rom_end = next_start) ∧
    (initialize_segments exC2_cfg).map (fun segs => segs.map fun s => (s.rom_start, s.rom_end))
      = Except.ok [(0, 4096), (4096, 8192)] := by
  constructor
  · intro d rest seen segs this_start next_start next_desc hb h hps hh hpn
    obtain ⟨ts', nd', ns', tail, hps', hh', hpn', _, hsegs⟩ :=
      init_loop_cons_real d rest seen segs hb h
    rw [hps] at hps'
    have hts : this_start = ts' := Option.some.inj hps'
    rw [hh] at hh'
    have hnd : next_desc = nd' := Option.some.inj hh'
    rw [← hnd, hpn] at hpn'
    have hns : next_start = ns' := Option.some.inj hpn'
    subst hts; subst hns
    refine ⟨?_, ?_, ?_⟩
    · rw [hsegs]; rfl
    · cases d <;> rfl
    · cases d <;> rfl
  · rfl

/-- Witness for C2's general part on a concrete run: the single real
descriptor is paired with the following boundary marker's address. -/
theorem claim_C2_witness :
    [exW2_seg].head? = some (mk_segment exW2_d 0 4096) ∧
    (mk_segment exW2_d 0 4096).rom_start = 0 ∧
    (mk_segment exW2_d 0 4096).rom_end = 4096 :=
  claim_C2_thm.1 exW2_d [SegDesc.lst [4096]] [] [exW2_seg] 0 4096
    (SegDesc.lst [4096]) rfl rfl rfl rfl rfl

/-- Counterexample to C2 as stated: the "unresolved (open-ended), legal
only for the last segment" case does not exist — a descriptor list whose
last entry is a real segment fails with an index error rather than
producing an open-ended segment. -/
theorem claim_C2_cex :
    initialize_segments exC2_last = Except.error InitError.indexError := rfl

/-! ### Claim C9 — trailing real descriptor reads out of range -/

/-- C9, confirmed: `initialize_segments` completes only when the final
descriptor (if any) is a boundary marker — any run ending in a real
descriptor reads `config_segments[i + 1]` out of range; in particular a
two-real-descriptor list fails with the index error. -/
theorem claim_C9_thm :
    (∀ (cs : List SegDesc) (seen : List String) (segs : List Segment),
      initialize_segments_loop cs seen = Except.ok segs →
      ∀ d, cs.getLast? = some d → isBoundaryMarker d = true) ∧
    initialize_segments exC9_cfg = Except.error InitError.indexError :=
  ⟨init_loop_ok_last_marker, rfl⟩

/-- Witness for C9 on a concrete successful run: its last descriptor is
indeed a boundary marker. -/
theorem claim_C9_witness : isBoundaryMarker (SegDesc.lst [4096]) = true :=
  claim_C9_thm.1 exC9_ok_cfg []
    [mk_segment (SegDesc.dict 0 "x" "bin" none none (exBeh "c9x" 0 false false)) 0 4096]
    rfl (SegDesc.lst [4096]) rfl

/-! ### Characterization of `get_segment_symbols` -/

/-- The owned-side dict built by the loop: the accumulator's entries
followed by exactly the table's symbols at that address whose branch
condition sent them to `seg_syms`, in table order. -/
theorem gss_loop_fst (segment : Segment) (all_segments : List Segment) :
    ∀ (table : List Sym) (a b : Nat → List Sym) (v : Nat),
      (get_segment_symbols_loop segment all_segments table a b).1 v
        = a v ++ (table.filter fun s =>
            decide (s.vram_start = v) && attributed_to_segment segment all_segments s) := by
  intro table
  induction table with
  | nil => intro a b v; simp [get_segment_symbols_loop]
  | cons s rest ih =>
    intro a b v
    have hcons : ∀ (pr : Bool),
        attributed_to_segment segment all_segments s = pr →
        ((s :: rest).filter fun x =>
            decide (x.vram_start = v) && attributed_to_segment segment all_segments x)
          = if decide (s.vram_start = v) && pr then
              s :: (rest.filter fun x =>
                decide (x.vram_start = v) && attributed_to_segment segment all_segments x)
            else (rest.filter fun x =>
                decide (x.vram_start = v) && attributed_to_segment segment all_segments x) := by
      intro pr hpr
      rw [List.filter_cons, hpr]
    by_cases h1 : (is_symbol_isolated s all_segments && !rom_truthy s) = true
    · by_cases h2 : segment.contains_vram s.vram_start = true
      · have ha : attributed_to_segment segment all_segments s = true := by
          simp [attributed_to_segment, h1, h2]
        have hstep : get_segment_symbols_loop segment all_segments (s :: rest) a b
            = get_segment_symbols_loop segment all_segments rest (addSym a s) b := by
          simp [get_segment_symbols_loop, h1, h2]
        rw [hstep, ih, hcons true ha]
        by_cases hv : s.vram_start = v
        · simp [addSym, hv, List.append_assoc]
        · have hv' : ¬ v = s.vram_start := fun h => hv h.symm
          simp [addSym, hv, hv']
      · have ha : attributed_to_segment segment all_segments s = false := by
          simp [attributed_to_segment, h1, h2]
        have hstep : get_segment_symbols_loop segment all_segments (s :: rest) a b
            = get_segment_symbols_loop segment all_segments rest a (addSym b s) := by
          simp [get_segment_symbols_loop, h1, h2]
        rw [hstep, ih, hcons false ha]
        simp
    · by_cases h3 : rom_contained segment s = true
      · have ha : attributed_to_segment segment all_segments s = true := by
          simp [attributed_to_segment, h1, h3]
        have hstep : get_segment_symbols_loop segment all_segments (s :: rest) a b
            = get_segment_symbols_loop segment all_segments rest (addSym a s) b := by
          simp [get_segment_symbols_loop, h1, h3]
        rw [hstep, ih, hcons true ha]
        by_cases hv : s.vram_start = v
        · simp [addSym, hv, List.append_assoc]
        · have hv' : ¬ v = s.vram_start := fun h => hv h.symm
          simp [addSym, hv, hv']
      · have ha : attributed_to_segment segment all_segments s = false := by
          simp [attributed_to_segment, h1, h3]
        have hstep : get_segment_symbols_loop segment all_segments (s :: rest) a b
            = get_segment_symbols_loop segment all_segments rest a (addSym b s) := by
          simp [get_segment_symbols_loop, h1, h3]
        rw [hstep, ih, hcons false ha]
        simp

/-- The external-side dict built by the loop: the accumulator's entries
followed by exactly the table's symbols at that address whose branch
condition sent them to `other_syms`, in table order. -/
theorem gss_loop_snd (segment : Segment) (all_segments : List Segment) :
    ∀ (table : List Sym) (a b : Nat → List Sym) (v : Nat),
      (get_segment_symbols_loop segment all_segments table a b).2 v
        = b v ++ (table.filter fun s =>
            decide (s.vram_start = v) && !attributed_to_segment segment all_segments s) := by
  intro table
  induction table with
  | nil => intro a b v; simp [get_segment_symbols_loop]
  | cons s rest ih =>
    intro a b v
    have hcons : ∀ (pr : Bool),
        attributed_to_segment segment all_segments s = pr →
        ((s :: rest).filter fun x =>
            decide (x.vram_start = v) && !attributed_to_segment segment all_segments x)
          = if decide (s.vram_start = v) && !pr then
              s :: (rest.filter fun x =>
                decide (x.vram_start = v) && !attributed_to_segment segment all_segments x)
            else (rest.filter fun x =>
                decide (x.vram_start = v) && !attributed_to_segment segment all_segments x) := by
      intro pr hpr
      rw [List.filter_cons, hpr]
    by_cases h1 : (is_symbol_isolated s all_segments && !rom_truthy s) = true
    · by_cases h2 : segment.contains_vram s.vram_start = true
      · have ha : attributed_to_segment segment all_segments s = true := by
          simp [attributed_to_segment, h1, h2]
        have hstep : get_segment_symbols_loop segment all_segments (s :: rest) a b
            = get_segment_symbols_loop segment all_segments rest (addSym a s) b := by
          simp [get_segment_symbols_loop, h1, h2]
        rw [hstep, ih, hcons true ha]
        simp
      · have ha : attributed_to_segment segment all_segments s = false := by
          simp [attributed_to_segment, h1, h2]
        have hstep : get_segment_symbols_loop segment all_segments (s :: rest) a b
            = get_segment_symbols_loop segment all_segments rest a (addSym b s) := by
          simp [get_segment_symbols_loop, h1, h2]
        rw [hstep, ih, hcons false ha]
        by_cases hv : s.vram_start = v
        · simp [addSym, hv, List.append_assoc]
        · have hv' : ¬ v = s.vram_start := fun h => hv h.symm
          simp [addSym, hv, hv']
    · by_cases h3 : rom_contained segment s = true
      · have ha : attributed_to_segment segment all_segments s = true := by
          simp [attributed_to_segment, h1, h3]
        have hstep : get_segment_symbols_loop segment all_segments (s :: rest) a b
            = get_segment_symbols_loop segment all_segments rest (addSym a s) b := by
          simp [get_segment_symbols_loop, h1, h3]
        rw [hstep, ih, hcons true ha]
        simp
      · have ha : attributed_to_segment segment all_segments s = false := by
          simp [attributed_to_segment, h1, h3]
        have hstep : get_segment_symbols_loop segment all_segments (s :: rest) a b
            = get_segment_symbols_loop segment all_segments rest a (addSym b s) := by
          simp [get_segment_symbols_loop, h1, h3]
        rw [hstep, ih, hcons false ha]
        by_cases hv : s.vram_start = v
        · simp [addSym, hv, List.append_assoc]
        · have hv' : ¬ v = s.vram_start := fun h => hv h.symm
          simp [addSym, hv, hv']

/-- `get_segment_symbols`: the owned set at address `v` is exactly the
filter of the table by "at `v` and attributed to the segment". -/
theorem gss_fst (segment : Segment) (all_segments : List Segment) (table : List Sym) (v : Nat) :
    (get_segment_symbols segment all_segments table).1 v
      = table.filter fun s =>
          decide (s.vram_start = v) && attributed_to_segment segment all_segments s := by
  unfold get_segment_symbols
  rw [gss_loop_fst]
  simp

/-- `get_segment_symbols`: the external set at address `v` is exactly the
filter of the table by "at `v` and not attributed to the segment". -/
theorem gss_snd (segment : Segment) (all_segments : List Segment) (table : List Sym) (v : Nat) :
    (get_segment_symbols segment all_segments table).2 v
      = table.filter fun s =>
          decide (s.vram_start = v) && !attributed_to_segment segment all_segments s := by
  unfold get_segment_symbols
  rw [gss_loop_snd]
  simp

theorem length_filter_split {α : Type} (p q : α → Bool) :
    ∀ l : List α,
      (l.filter fun x => p x && q x).length + (l.filter fun x => p x && !q x).length
        = (l.filter p).length := by
  intro l
  induction l with
  | nil => rfl
  | cons x xs ih => cases hp : p x <;> cases hq : q x <;> simp [List.filter_cons, hp, hq] <;> omega

theorem length_filter_not_split {α : Type} (q : α → Bool) :
    ∀ l : List α, (l.filter q).length + (l.filter fun x => !q x).length = l.length := by
  intro l
  induction l with
  | nil => rfl
  | cons x xs ih => cases hq : q x <;> simp [List.filter_cons, hq] <;> omega

/-- Splitting a symbol table by address over a duplicate-free list of keys
covering every symbol recovers its full length. -/
theorem sum_filter_lengths_of_keys : ∀ (keys : List Nat), keys.Nodup →
    ∀ (t : List Sym), (∀ s ∈ t, s.vram_start ∈ keys) →
    (keys.map fun v => (t.filter fun s => decide (s.vram_start = v)).length).sum = t.length := by
  intro keys
  induction keys with
  | nil =>
    intro _ t hcov
    cases t with
    | nil => rfl
    | cons s ss => exact absurd (hcov s (by simp)) (by simp)
  | cons v ks ih =>
    intro hnd t hcov
    have hvks : v ∉ ks := (List.nodup_cons.mp hnd).1
    have hndks : ks.Nodup := (List.nodup_cons.mp hnd).2
    have hcov' : ∀ s ∈ t.filter (fun s => !decide (s.vram_start = v)), s.vram_start ∈ ks := by
      intro s hs
      have hmem := List.mem_filter.mp hs
      have hne : s.vram_start ≠ v := by simpa using hmem.2
      have hin := hcov s hmem.1
      simp only [List.mem_cons] at hin
      rcases hin with h | h
      · exact absurd h hne
      · exact h
    have hmap : (ks.map fun u => (t.filter fun s => decide (s.vram_start = u)).length)
        = ks.map fun u =>
            ((t.filter (fun s => !decide (s.vram_start = v))).filter
              fun s => decide (s.vram_start = u)).length := by
      apply List.map_congr_left
      intro u hu
      have huv : u ≠ v := fun h => hvks (h ▸ hu)
      rw [List.filter_filter]
      congr 1
      apply List.filter_congr
      intro x _
      by_cases hx : x.vram_start = u
      · have : x.vram_start ≠ v := by rw [hx]; exact huv
        simp [hx, this, huv]
      · simp [hx]
    simp only [List.map_cons, List.sum_cons]
    rw [hmap, ih hndks (t.filter (fun s => !decide (s.vram_start = v))) hcov']
    exact length_filter_not_split (fun s => decide (s.vram_start = v)) t

/-! ### Claim C1 — vram-isolated symbol attribution -/

/-- C1, amended: a symbol whose vram address is contained by exactly one
segment in the whole tree and that carries no explicit ROM address is
attributed to that segment's owned set (and not to its external set);
every other segment receives the symbol in its external set — not its
owned set — at that address. -/
theorem claim_C1_thm : ∀ (segment : Segment) (all_segments : List Segment)
    (table : List Sym) (s : Sym),
    s ∈ table → is_symbol_isolated s all_segments = true → s.rom = none →
    (segment.contains_vram s.vram_start = true →
      s ∈ (get_segment_symbols segment all_segments table).1 s.vram_start ∧
      s ∉ (get_segment_symbols segment all_segments table).2 s.vram_start) ∧
    (segment.contains_vram s.vram_start = false →
      s ∈ (get_segment_symbols segment all_segments table).2 s.vram_start ∧
      s ∉ (get_segment_symbols segment all_segments table).1 s.vram_start) := by
  intro segment all_segments table s hmem hiso hrom
  have htruthy : rom_truthy s = false := by simp [rom_truthy, hrom]
  have hattr : attributed_to_segment segment all_segments s
      = segment.contains_vram s.vram_start := by
    simp [attributed_to_segment, hiso, htruthy]
  constructor
  · intro hc
    constructor
    · rw [gss_fst]
      exact List.mem_filter.mpr ⟨hmem, by simp [hattr, hc]⟩
    · rw [gss_snd]
      intro hin
      have := (List.mem_filter.mp hin).2
      simp [hattr, hc] at this
  · intro hc
    constructor
    · rw [gss_snd]
      exact List.mem_filter.mpr ⟨hmem, by simp [hattr, hc]⟩
    · rw [gss_fst]
      intro hin
      have := (List.mem_filter.mp hin).2
      simp [hattr, hc] at this

/-- Witness for C1 on the example: the containing segment owns the
symbol, and the non-containing segment sees it as external only. -/
theorem claim_C1_witness :
    (exC1_sym ∈ (get_segment_symbols exC1_segA [exC1_segA, exC1_segB] [exC1_sym]).1 384 ∧
      exC1_sym ∉ (get_segment_symbols exC1_segA [exC1_segA, exC1_segB] [exC1_sym]).2 384) ∧
    (exC1_sym ∈ (get_segment_symbols exC1_segB [exC1_segA, exC1_segB] [exC1_sym]).2 384 ∧
      exC1_sym ∉ (get_segment_symbols exC1_segB [exC1_segA, exC1_segB] [exC1_sym]).1 384) :=
  ⟨(claim_C1_thm exC1_segA [exC1_segA, exC1_segB] [exC1_sym] exC1_sym
      (by decide) (by decide) (by decide)).1 (by decide),
   (claim_C1_thm exC1_segB [exC1_segA, exC1_segB] [exC1_sym] exC1_sym
      (by decide) (by decide) (by decide)).2 (by decide)⟩

/-- Counterexample to C1 as stated: the vram-isolated, ROM-less symbol
does appear in the OTHER segment's external set for its address, so it is
not absent from every other segment's owned-or-external sets. -/
theorem claim_C1_cex :
    is_symbol_isolated exC1_sym [exC1_segA, exC1_segB] = true ∧
    exC1_sym.rom = none ∧
    exC1_segA.contains_vram exC1_sym.vram_start = true ∧
    exC1_segB.contains_vram exC1_sym.vram_start = false ∧
    exC1_sym ∈ (get_segment_symbols exC1_segB [exC1_segA, exC1_segB] [exC1_sym]).2 384 :=
  ⟨by decide, by decide, by decide, by decide, by decide⟩

/-! ### Claim C10 — the symbol partition is total and exclusive -/

/-- C10, confirmed: every symbol of the table lands in exactly one of the
two returned dicts, under its own vram start address, appended (aliases
preserved, per-address counts add up to the per-address table count), and
the grand total across both dicts over all addresses equals the table's
length. -/
theorem claim_C10_thm : ∀ (segment : Segment) (all_segments : List Segment)
    (table : List Sym),
    (∀ v, ((get_segment_symbols segment all_segments table).1 v).length
        + ((get_segment_symbols segment all_segments table).2 v).length
        = (table.filter fun s => decide (s.vram_start = v)).length) ∧
    (∀ v s, s ∈ (get_segment_symbols segment all_segments table).1 v → s.vram_start = v) ∧
    (∀ v s, s ∈ (get_segment_symbols segment all_segments table).2 v → s.vram_start = v) ∧
    (∀ v s, s ∈ (get_segment_symbols segment all_segments table).1 v →
      s ∉ (get_segment_symbols segment all_segments table).2 v) ∧
    ((table.map Sym.vram_start).dedup.map fun v =>
        ((get_segment_symbols segment all_segments table).1 v).length
          + ((get_segment_symbols segment all_segments table).2 v).length).sum
      = table.length := by
  intro segment all_segments table
  have hlen : ∀ v, ((get_segment_symbols segment all_segments table).1 v).length
      + ((get_segment_symbols segment all_segments table).2 v).length
      = (table.filter fun s => decide (s.vram_start = v)).length := by
    intro v
    rw [gss_fst, gss_snd]
    exact length_filter_split (fun s => decide (s.vram_start = v))
      (attributed_to_segment segment all_segments) table
  refine ⟨hlen, ?_, ?_, ?_, ?_⟩
  · intro v s hs
    rw [gss_fst] at hs
    have := (List.mem_filter.mp hs).2
    simp at this
    exact this.1
  · intro v s hs
    rw [gss_snd] at hs
    have := (List.mem_filter.mp hs).2
    simp at this
    exact this.1
  · intro v s hs hs'
    rw [gss_fst] at hs
    rw [gss_snd] at hs'
    have h1 := (List.mem_filter.mp hs).2
    have h2 := (List.mem_filter.mp hs').2
    simp at h1 h2
    exact absurd h1.2 (by simp [h2.2])
  · rw [List.map_congr_left fun v _ => hlen v]
    apply sum_filter_lengths_of_keys (table.map Sym.vram_start).dedup (List.nodup_dedup _)
    intro s hs
    exact List.mem_dedup.mpr (List.mem_map_of_mem Sym.vram_start hs)

/-- Witness for C10 on a concrete two-symbol table: the per-address count
conjunct and the key-correctness conjunct at the example address. -/
theorem claim_C10_witness :
    ((get_segment_symbols exC1_segA [exC1_segA, exC1_segB] [exC1_sym]).1 384).length
        + ((get_segment_symbols exC1_segA [exC1_segA, exC1_segB] [exC1_sym]).2 384).length
      = ([exC1_sym].filter fun s => decide (s.vram_start = 384)).length ∧
    exC1_sym.vram_start = 384 :=
  ⟨(claim_C10_thm exC1_segA [exC1_segA, exC1_segB] [exC1_sym]).1 384,
   (claim_C10_thm exC1_segA [exC1_segA, exC1_segB] [exC1_sym]).2.1 384 exC1_sym (by decide)⟩

theorem dget_eq_none_of_not_mem (l : List (String × Val)) (k : String)
    (h : k ∉ l.map Prod.fst) : dget l k = none := by
  induction l with
  | nil => rfl
  | cons p rest ih =>
    obtain ⟨k', v⟩ := p
    simp only [List.map_cons, List.mem_cons] at h
    push_neg at h
    rw [dget, if_neg (fun he => h.1 he.symm)]
    exact ih h.2

theorem merge_step (main : List (String × Val)) (k : String) (v : Val)
    (rest : List (String × Val)) (out : List (String × Val))
    (h : merge_configs main ((k, v) :: rest) = Except.ok out) :
    ∃ main', merge_configs main' rest = Except.ok out ∧
      (∀ k', k ≠ k' → dget main' k' = dget main k') ∧
      (dget main k = none → dget main' k = some v) ∧
      (∀ mv, dget main k = some mv → mv.ty = v.ty) ∧
      (∀ l1 l2, dget main k = some (Val.list l1) → v = Val.list l2 →
        dget main' k = some (Val.list (l1 ++ l2))) ∧
      (∀ d1 d2, dget main k = some (Val.dict d1) → v = Val.dict d2 →
        ∃ m, merge_configs d1 d2 = Except.ok m ∧ dget main' k = some (Val.dict m)) ∧
      (∀ mv, dget main k = some mv → mv.isScalar = true → dget main' k = some v) := by
  rw [merge_configs] at h
  split at h
  · -- dget main k = none
    rename_i heq
    refine ⟨dset main k v, h, fun k' hk => dget_dset_other main k k' v hk, ?_, ?_, ?_, ?_, ?_⟩
    · intro _; exact dget_dset_same main k v
    · intro mv hmv; rw [heq] at hmv; exact absurd hmv (by simp)
    · intro l1 l2 hmv _; rw [heq] at hmv; exact absurd hmv (by simp)
    · intro d1 d2 hmv _; rw [heq] at hmv; exact absurd hmv (by simp)
    · intro mv hmv _; rw [heq] at hmv; exact absurd hmv (by simp)
  · -- dget main k = some mv
    rename_i mv heq
    split at h
    · -- types match
      rename_i hty
      split at h
      · -- list / list
        rename_i l1 l2
        refine ⟨dset main k (Val.list (l1 ++ l2)), h,
          fun k' hk => dget_dset_other main k k' _ hk, ?_, ?_, ?_, ?_, ?_⟩
        · intro hnone; rw [heq] at hnone; exact absurd hnone (by simp)
        · intro mv' hmv; rw [heq] at hmv
          rw [← Option.some.inj hmv]; exact hty
        · intro l1' l2' hmv hveq
          have h1 : Val.list l1 = Val.list l1' := by
            rw [heq] at hmv; exact Option.some.inj hmv
          have hl1 : l1 = l1' := Val.list.inj h1
          have hl2 : l2 = l2' := Val.list.inj hveq
          rw [← hl1, ← hl2]; exact dget_dset_same main k _
        · intro d1 d2 _ hveq; exact absurd hveq (by simp)
        · intro mv' hmv hsc
          rw [heq] at hmv
          rw [← Option.some.inj hmv] at hsc
          exact absurd hsc (by simp [Val.isScalar])
      · -- dict / dict
        rename_i d1 d2
        split at h
        · -- inner merge succeeded
          rename_i m hm
          refine ⟨dset main k (Val.dict m), h,
            fun k' hk => dget_dset_other main k k' _ hk, ?_, ?_, ?_, ?_, ?_⟩
          · intro hnone; rw [heq] at hnone; exact absurd hnone (by simp)
          · intro mv' hmv; rw [heq] at hmv
            rw [← Option.some.inj hmv]; exact hty
          · intro l1' l2' hmv hveq; exact absurd hveq (by simp)
          · intro d1' d2' hmv hveq
            have h1 : Val.dict d1 = Val.dict d1' := by
              rw [heq] at hmv; exact Option.some.inj hmv
            have hd1 : d1 = d1' := Val.dict.inj h1
            have hd2 : d2 = d2' := Val.dict.inj hveq
            refine ⟨m, ?_, dget_dset_same main k _⟩
            rw [← hd1, ← hd2]; exact hm
          · intro mv' hmv hsc
            rw [heq] at hmv
            rw [← Option.some.inj hmv] at hsc
            exact absurd hsc (by simp [Val.isScalar])
        · simp at h
      · -- catch-all: same-type scalars overwrite
        rename_i hne1 hne2
        refine ⟨dset main k v, h,
          fun k' hk => dget_dset_other main k k' _ hk, ?_, ?_, ?_, ?_, ?_⟩
        · intro hnone; rw [heq] at hnone; exact absurd hnone (by simp)
        · intro mv' hmv; rw [heq] at hmv
          rw [← Option.some.inj hmv]; exact hty
        · intro l1 l2 hmv hveq
          rw [heq] at hmv
          exact (hne1 l1 l2 (Option.some.inj hmv) hveq).elim
        · intro d1 d2 hmv hveq
          rw [heq] at hmv
          exact (hne2 d1 d2 (Option.some.inj hmv) hveq).elim
        · intro mv' hmv _
          exact dget_dset_same main k v
    · simp at h

/-- Keys absent from the additional config are untouched by the merge. -/
theorem merge_untouched : ∀ (add main out : List (String × Val)) (k : String),
    merge_configs main add = Except.ok out → dget add k = none → dget out k = dget main k := by
  intro add
  induction add with
  | nil =>
    intro main out k h _
    rw [merge_configs] at h
    rw [← Except.ok.inj h]
  | cons p rest ih =>
    obtain ⟨k1, v1⟩ := p
    intro main out k h hget
    have hk1 : ¬ k1 = k := by
      intro he
      rw [dget, if_pos he] at hget
      exact absurd hget (by simp)
    have hrest : dget rest k = none := by
      rw [dget, if_neg hk1] at hget
      exact hget
    obtain ⟨main', hrec, huntouched, _⟩ := merge_step main k1 v1 rest out h
    rw [ih main' out k hrec hrest]
    exact huntouched k hk1

/-- Behaviour of the merge at a key present in the additional config,
assuming that config's keys are duplicate-free (Python dicts are). -/
theorem merge_key : ∀ (add : List (String × Val)), (add.map Prod.fst).Nodup →
    ∀ (main out : List (String × Val)) (k : String) (av : Val),
    merge_configs main add = Except.ok out → dget add k = some av →
    (dget main k = none → dget out k = some av) ∧
    (∀ mv, dget main k = some mv → mv.ty = av.ty) ∧
    (∀ l1 l2, dget main k = some (Val.list l1) → av = Val.list l2 →
      dget out k = some (Val.list (l1 ++ l2))) ∧
    (∀ d1 d2, dget main k = some (Val.dict d1) → av = Val.dict d2 →
      ∃ m, merge_configs d1 d2 = Except.ok m ∧ dget out k = some (Val.dict m)) ∧
    (∀ mv, dget main k = some mv → mv.isScalar = true → dget out k = some av) := by
  intro add
  induction add with
  | nil => intro _ main out k av _ hget; exact absurd hget (by simp [dget])
  | cons p rest ih =>
    obtain ⟨k1, v1⟩ := p
    intro hnd main out k av h hget
    have hnd' : (rest.map Prod.fst).Nodup := (List.nodup_cons.mp (by simpa using hnd)).2
    have hk1rest : k1 ∉ rest.map Prod.fst := (List.nodup_cons.mp (by simpa using hnd)).1
    obtain ⟨main', hrec, huntouched, hnone, hty, hlist, hdict, hscalar⟩ :=
      merge_step main k1 v1 rest out h
    by_cases hk : k1 = k
    · subst hk
      have hv1 : v1 = av := by
        rw [dget, if_pos rfl] at hget
        exact Option.some.inj hget
      subst hv1
      have hout : dget out k1 = dget main' k1 :=
        merge_untouched rest main' out k1 hrec (dget_eq_none_of_not_mem rest k1 hk1rest)
      refine ⟨?_, hty, ?_, ?_, ?_⟩
      · intro hn; rw [hout]; exact hnone hn
      · intro l1 l2 hmv hveq; rw [hout]; exact hlist l1 l2 hmv hveq
      · intro d1 d2 hmv hveq
        obtain ⟨m, hm, hm'⟩ := hdict d1 d2 hmv hveq
        exact ⟨m, hm, by rw [hout]; exact hm'⟩
      · intro mv hmv hsc; rw [hout]; exact hscalar mv hmv hsc
    · have hget' : dget rest k = some av := by
        rw [dget, if_neg hk] at hget
        exact hget
      have hmain' : dget main' k = dget main k := huntouched k hk
      have hres := ih hnd' main' out k av hrec hget'
      rw [hmain'] at hres
      exact hres

example : merge_configs exC6_main exC6_add = Except.ok exC6_out := by
  simp [merge_configs, exC6_main, exC6_add, exC6_out, dget, dset, Val.ty]

example : merge_configs [("x", Val.str "a")] [("x", Val.int 1)] =
    Except.error (MergeError.typeMismatch "x") := by
  simp [merge_configs, dget, Val.ty]

/-! ### Claim C6 — configuration merging -/

/-- C6, amended: merging two configuration documents concatenates
list-valued keys present in both (first document's elements first, order
and counts preserved), recursively merges mapping-valued keys present in
both, overwrites a scalar key present in both with the later document's
value, and keeps the value of any key present in only one document; any
runtime-type mismatch between the two documents' values for the same key
— not only list versus mapping, but also e.g. string versus number — is a
fatal merge error. -/
theorem claim_C6_thm : ∀ (main add out : List (String × Val)),
    (add.map Prod.fst).Nodup →
    merge_configs main add = Except.ok out →
    (∀ k, dget add k = none → dget out k = dget main k) ∧
    (∀ k v, dget main k = none → dget add k = some v → dget out k = some v) ∧
    (∀ k l1 l2, dget main k = some (Val.list l1) → dget add k = some (Val.list l2) →
      dget out k = some (Val.list (l1 ++ l2))) ∧
    (∀ k d1 d2, dget main k = some (Val.dict d1) → dget add k = some (Val.dict d2) →
      ∃ m, merge_configs d1 d2 = Except.ok m ∧ dget out k = some (Val.dict m)) ∧
    (∀ k mv av, dget main k = some mv → dget add k = some av →
      mv.isScalar = true → dget out k = some av) ∧
    (∀ k mv av, dget main k = some mv → dget add k = some av → mv.ty = av.ty) := by
  intro main add out hnd h
  refine ⟨?_, ?_, ?_, ?_, ?_, ?_⟩
  · intro k hget; exact merge_untouched add main out k h hget
  · intro k v hmain hget; exact (merge_key add hnd main out k v h hget).1 hmain
  · intro k l1 l2 hmain hget
    exact (merge_key add hnd main out k (Val.list l2) h hget).2.2.1 l1 l2 hmain rfl
  · intro k d1 d2 hmain hget
    exact (merge_key add hnd main out k (Val.dict d2) h hget).2.2.2.1 d1 d2 hmain rfl
  · intro k mv av hmain hget hsc
    exact (merge_key add hnd main out k av h hget).2.2.2.2 mv hmain hsc
  · intro k mv av hmain hget
    exact (merge_key add hnd main out k av h hget).2.1 mv hmain

/-- Witness for C6 on the spec's own example: merging
`{"segments":[1,2], "options":{"x":1}}` with
`{"segments":[3], "options":{"y":2}}` concatenates the list and merges
the sub-mapping. -/
theorem claim_C6_witness :
    merge_configs exC6_main exC6_add = Except.ok exC6_out ∧
    dget exC6_out "segments" = some (Val.list [Val.int 1, Val.int 2, Val.int 3]) ∧
    dget exC6_out "options" = some (Val.dict [("x", Val.int 1), ("y", Val.int 2)]) := by
  have hmerge : merge_configs exC6_main exC6_add = Except.ok exC6_out := by
    simp [merge_configs, exC6_main, exC6_add, exC6_out, dget, dset, Val.ty]
  have h := claim_C6_thm exC6_main exC6_add exC6_out (by decide) hmerge
  refine ⟨hmerge, ?_, ?_⟩
  · exact h.2.2.1 "segments" [Val.int 1, Val.int 2] [Val.int 3]
      (by simp [exC6_main, dget]) (by simp [exC6_add, dget])
  · obtain ⟨m, hm, hout⟩ := h.2.2.2.1 "options" [("x", Val.int 1)] [("y", Val.int 2)]
      (by simp [exC6_main, dget]) (by simp [exC6_add, dget])
    have hm' : m = [("x", Val.int 1), ("y", Val.int 2)] := by
      have h2 : merge_configs [("x", Val.int 1)] [("y", Val.int 2)]
          = Except.ok [("x", Val.int 1), ("y", Val.int 2)] := by
        simp [merge_configs, dget, dset]
      rw [h2] at hm
      exact (Except.ok.inj hm).symm
    rw [← hm']
    exact hout

/-- Counterexample to C6 as stated: a key held as two scalars of
different runtime types (a string and a number) is a fatal merge error,
not an overwrite by the later document's value. -/
theorem claim_C6_cex :
    merge_configs [("x", Val.str "a")] [("x", Val.int 1)]
      = Except.error (MergeError.typeMismatch "x") ∧
    (Val.str "a").isScalar = true ∧ (Val.int 1).isScalar = true := by
  refine ⟨by simp [merge_configs, dget, Val.ty], rfl, rfl⟩

/-! ### Scan- and split-pass lemmas -/

theorem scan_step_processed_mono (uc : Bool) (cache : Cache) (st : ScanState)
    (segment : Segment) (u : String) (hu : u ∈ st.processed) :
    u ∈ (scan_step uc cache st segment).processed := by
  simp only [scan_step]
  split
  · split
    · exact hu
    · exact List.mem_append_left _ hu
  · exact hu

theorem scan_pass_processed_mono (uc : Bool) (cache : Cache) :
    ∀ (segs : List Segment) (st : ScanState) (u : String),
      u ∈ st.processed → u ∈ (scan_pass uc cache segs st).processed := by
  intro segs
  induction segs with
  | nil => intro st u hu; exact hu
  | cons s rest ih =>
    intro st u hu
    exact ih _ u (scan_step_processed_mono uc cache st s u hu)

/-- With a cache that misses every segment, every scan-eligible segment's
scan runs (it is recorded in `processed`). -/
theorem scan_pass_processes_all (uc : Bool) (cache : Cache) :
    ∀ (segs : List Segment) (st : ScanState),
      (∀ s ∈ segs, cache s.beh.uid = none) →
      ∀ s ∈ segs, s.beh.shouldScan = true →
        s.beh.uid ∈ (scan_pass uc cache segs st).processed := by
  intro segs
  induction segs with
  | nil => intro st _ s hs; exact absurd hs (by simp)
  | cons c rest ih =>
    intro st hcache s hs hscan
    rcases List.mem_cons.mp hs with rfl | hmem
    · show s.beh.uid ∈ (scan_pass uc cache rest (scan_step uc cache st s)).processed
      apply scan_pass_processed_mono
      simp only [scan_step]
      rw [if_pos hscan]
      rw [if_neg]
      · exact List.mem_append_right _ (by simp)
      · intro hcontra
        rw [hcache s (by simp)] at hcontra
        exact absurd hcontra.2 (by simp)
    · exact ih _ (fun x hx => hcache x (by simp [hx])) s hmem hscan

/-- With duplicate-free segment uids and a cache state that misses every
segment, the split pass records no cache hit. -/
theorem split_pass_no_new_hits (uc : Bool) (typ : Option String) :
    ∀ (segs : List Segment) (st : SplitState),
      (∀ s ∈ segs, st.cache s.beh.uid = none) →
      ((segs.map fun s => s.beh.uid).Nodup) →
      (split_pass uc typ segs st).hits = st.hits := by
  intro segs
  induction segs with
  | nil => intro st _ _; rfl
  | cons c rest ih =>
    intro st hcache hnd
    have hc : st.cache c.beh.uid = none := hcache c (by simp)
    have hnotin : c.beh.uid ∉ rest.map fun s => s.beh.uid :=
      (List.nodup_cons.mp (by simpa using hnd)).1
    have hnd' : (rest.map fun s => s.beh.uid).Nodup :=
      (List.nodup_cons.mp (by simpa using hnd)).2
    show (split_pass uc typ rest (split_step uc typ st c)).hits = st.hits
    have hstep_hits : (split_step uc typ st c).hits = st.hits := by
      simp only [split_step]
      split
      · rw [if_neg]
        · split <;> rfl
        · rw [hc]; simp
      · split <;> rfl
    have hstep_cache : ∀ x ∈ rest, (split_step uc typ st c).cache x.beh.uid = none := by
      intro x hx
      have hxne : x.beh.uid ≠ c.beh.uid := by
        intro he
        exact hnotin (he ▸ List.mem_map_of_mem (fun s => s.beh.uid) hx)
      simp only [split_step]
      split
      · rw [if_neg]
        · split
          · simp only []
            rw [if_neg hxne]
            exact hcache x (by simp [hx])
          · simp only []
            rw [if_neg hxne]
            exact hcache x (by simp [hx])
        · rw [hc]; simp
      · split
        · exact hcache x (by simp [hx])
        · exact hcache x (by simp [hx])
    rw [ih _ hstep_cache hnd', hstep_hits]

/-! ### Claim C3 — whole-store invalidation on options change -/

/-- C3, confirmed: with caching enabled and the stored `"__options__"`
entry differing from the configuration's options block, the store is
replaced (before any per-segment lookup) by one holding only the fresh
options entry; consequently — when segment uids are duplicate-free and
none is the reserved key — the run records no split-pass cache hit and
scans every scan-eligible segment. -/
theorem claim_C3_thm : ∀ (computed : String) (loaded : Cache) (opts : Option Nat)
    (cfg : List SegDesc) (r : RunResult),
    loaded "__options__" ≠ opts →
    (invalidate_on_options_change true loaded opts
      = fun k => if k = "__options__" then opts else none) ∧
    (main_run none computed true (Except.ok loaded) opts cfg = Except.ok r →
      (∀ s ∈ r.all_segments, s.beh.uid ≠ "__options__") →
      ((r.all_segments.map fun s => s.beh.uid).Nodup) →
      r.split.hits = [] ∧
      (∀ s ∈ r.all_segments, s.beh.shouldScan = true → s.beh.uid ∈ r.scan.processed)) := by
  intro computed loaded opts cfg r hneq
  have hinv : invalidate_on_options_change true loaded opts
      = fun k => if k = "__options__" then opts else none := by
    unfold invalidate_on_options_change
    rw [if_pos ⟨rfl, hneq⟩]
  refine ⟨hinv, ?_⟩
  intro hrun huid hnd
  simp only [main_run, main_run_after_gate, load_cache, if_pos] at hrun
  rw [hinv] at hrun
  cases hinit : initialize_segments cfg with
  | error e => rw [hinit] at hrun; exact absurd hrun (by simp)
  | ok segs =>
    rw [hinit] at hrun
    obtain rfl := Except.ok.inj hrun
    have hmiss : ∀ s ∈ segs,
        (fun k => if k = "__options__" then opts else none) s.beh.uid = (none : Option Nat) := by
      intro s hs
      have := huid s hs
      simp only []
      rw [if_neg this]
    constructor
    · exact split_pass_no_new_hits true _ segs _ hmiss hnd
    · intro s hs hscan
      exact scan_pass_processes_all true _ segs _ hmiss s hs hscan

/-- Witness for C3 on a concrete run whose stored options entry differs:
no split-pass hit is recorded and the first segment's scan runs. -/
theorem claim_C3_witness :
    exC3_result.split.hits = [] ∧
    (mk_segment exC3_d1 0 4096).beh.uid ∈ exC3_result.scan.processed := by
  have h := (claim_C3_thm "" exC3_cache (some 7) exC3_cfg exC3_result (by decide)).2
    rfl (by decide) (by decide)
  exact ⟨h.1, h.2 (mk_segment exC3_d1 0 4096) (by decide) rfl⟩

/-! ### Claim C4 — cache-hit counters use the leaked scan-loop type -/

/-- C4: in the concrete run, the only split-pass cache hit is segment
`"s1"` of type `"code"`, yet the `"code"` bucket stays `0` and the bucket
bumped is `"img"` — the type computed for the LAST segment of the scan
loop, whose loop variable `typ` leaks into the split loop (split.py line
301). -/
theorem claim_C4_thm :
    (main_run none "" true (Except.ok exC4_cache) (some 7) exC4_cfg).map
      (fun r => (r.split.hits, r.split.seg_cached "code", r.split.seg_cached "img",
        r.scan.typ))
      = Except.ok (["s1"], 0, 1, some "img") := rfl

/-! ### Claim C7 — cache load failure degrades to an empty cache -/

/-- C7, confirmed: any cache-file load failure yields the empty in-memory
cache, and the whole run behaves exactly as a run whose cache file read
produced an empty store — no load failure can abort the run. -/
theorem claim_C7_thm : ∀ (e : CacheLoadError) (expected : Option String)
    (computed : String) (uc : Bool) (opts : Option Nat) (cfg : List SegDesc),
    load_cache uc (Except.error e) = (fun _ => none) ∧
    main_run expected computed uc (Except.error e) opts cfg
      = main_run expected computed uc (Except.ok (fun _ => none)) opts cfg := by
  intro e expected computed uc opts cfg
  constructor
  · funext k; cases uc <;> rfl
  · rfl

/-! ### Claim C8 — the sha1 gate -/

/-- C8, confirmed: when the configuration declares an expected sha1, a
case-insensitive mismatch with the (lowercase) computed digest makes the
whole run the fatal mismatch error — for every segment list, before any
segment is constructed — and a case-insensitive match makes the run equal
to the gate-free run. -/
theorem claim_C8_thm : ∀ (declared computed : String) (uc : Bool)
    (loaded : Except CacheLoadError Cache) (opts : Option Nat) (cfg : List SegDesc),
    str_lower computed = computed →
    (str_lower declared ≠ str_lower computed →
      main_run (some declared) computed uc loaded opts cfg
        = Except.error (FatalError.sha1Mismatch (str_lower declared) computed)) ∧
    (str_lower declared = str_lower computed →
      main_run (some declared) computed uc loaded opts cfg
        = main_run none computed uc loaded opts cfg) := by
  intro declared computed uc loaded opts cfg hlow
  constructor
  · intro hne
    rw [hlow] at hne
    show (if str_lower declared ≠ computed then
        Except.error (FatalError.sha1Mismatch (str_lower declared) computed)
      else main_run_after_gate uc loaded opts cfg)
      = Except.error (FatalError.sha1Mismatch (str_lower declared) computed)
    rw [if_pos hne]
  · intro heq
    rw [hlow] at heq
    show (if str_lower declared ≠ computed then
        Except.error (FatalError.sha1Mismatch (str_lower declared) computed)
      else main_run_after_gate uc loaded opts cfg)
      = main_run_after_gate uc loaded opts cfg
    rw [if_neg (fun h => h heq)]

/-- Witness for C8: a declared checksum differing only in letter case
from the computed digest passes the gate, leaving the run equal to the
gate-free run. -/
theorem claim_C8_witness :
    main_run (some "AB12") "ab12" false (Except.ok (fun _ => none)) none []
      = main_run none "ab12" false (Except.ok (fun _ => none)) none [] :=
  (claim_C8_thm "AB12" "ab12" false (Except.ok (fun _ => none)) none [] (by decide)).2
    (by decide)

end Splat
